import Mathlib

/-
Verification of the coordinate-geometry core of the Points-Lines program
(src/PointsLines.cpp together with the vec3 primitives of the framework
header).

Modeling conventions:
* The C++ code computes with IEEE single-precision floats; the model uses
  exact rational arithmetic for the same expressions.  All claims under
  test are stated at the algorithmic level (exact arithmetic).
* Distances that the source obtains with sqrtf are carried as their
  squares; squaring is strictly monotone on nonnegatives, so every
  comparison made by the search loops is preserved (the loop bounds 20 and
  0.01 appear as 400 and 1/10000).
* Rational division is total with x / 0 = 0.  Where the source can really
  divide by zero (Line::move) a guarded variant returning Option is
  provided; where a float NaN would make every comparison false (a
  zero-length direction in findNearestLine) the model tests the
  denominator for zero and skips the entry, matching the float control
  flow.
* The flat vertex store of LineCollection (4 entries per line: p1, p2,
  p3, p4) is a List Vec3; the event handlers read it with a total,
  Option-returning indexing function vgetI, whose none branch models an
  out-of-bounds vector access of the C++ code.
-/

/-- The framework's vec3 (2D geometry embedded with a third component). -/
structure Vec3 where
  x : ℚ
  y : ℚ
  z : ℚ
deriving DecidableEq

/-- Componentwise subtraction, the framework's vec3 operator-. -/
def vsub (u v : Vec3) : Vec3 := ⟨u.x - v.x, u.y - v.y, u.z - v.z⟩

/-- The framework's dot product on vec3. -/
def dot3 (v1 v2 : Vec3) : ℚ := v1.x * v2.x + v1.y * v2.y + v1.z * v2.z

/-- Squared length: the framework computes length v = sqrtf (dot v v); the
model keeps the square. -/
def lengthSq (v : Vec3) : ℚ := dot3 v v

/-- The framework's cross product on vec3. -/
def cross3 (v1 v2 : Vec3) : Vec3 :=
  ⟨v1.y * v2.z - v1.z * v2.y, v1.z * v2.x - v1.x * v2.z, v1.x * v2.y - v1.y * v2.x⟩

/-- The Line class: two defining points p1 p2, two render endpoints p3 p4,
implicit coefficients a b c, parametric direction px py. -/
structure Line where
  p1 : Vec3
  p2 : Vec3
  p3 : Vec3
  p4 : Vec3
  a : ℚ
  b : ℚ
  c : ℚ
  px : ℚ
  py : ℚ
deriving DecidableEq

/-- First phase of the Line(p1, p2) constructor: the implicit coefficients
(a, b, c), with the vertical special case for p1.x == p2.x. -/
def implicitABC (p1 p2 : Vec3) : ℚ × ℚ × ℚ :=
  if p1.x = p2.x then
    (1, 0, -p1.x)
  else
    let a := p2.y - p1.y
    let b := p1.x - p2.x
    (a, b, -a * p1.x - b * p1.y)

/-- Second phase of the Line(p1, p2) constructor: the render endpoints
p3, p4 clipped against x = -1 / x = 1 (or y = -1 / y = 1 when b = 0). -/
def renderEndpoints (p1 : Vec3) (a b c : ℚ) : Vec3 × Vec3 :=
  if b ≠ 0 then
    (⟨-1, (-a * (-1) - c) / b, 1⟩, ⟨1, (-a * 1 - c) / b, 1⟩)
  else
    (⟨p1.x, -1, 1⟩, ⟨p1.x, 1, 1⟩)

/-- The Line(p1, p2) constructor. -/
def lineOf (p1 p2 : Vec3) : Line :=
  let abc := implicitABC p1 p2
  let e := renderEndpoints p1 abc.1 abc.2.1 abc.2.2
  { p1 := p1, p2 := p2, p3 := e.1, p4 := e.2
    a := abc.1, b := abc.2.1, c := abc.2.2
    px := p2.x - p1.x, py := p2.y - p1.y }

/-- Line::findIntersectionPoint, Cramer's rule with a sentinel (0,0,1)
when the determinant is zero. -/
def findIntersectionPoint (l1 l2 : Line) : Vec3 :=
  let determinant := l1.a * l2.b - l2.a * l1.b
  if determinant = 0 then
    ⟨0, 0, 1⟩
  else
    ⟨(l1.b * l2.c - l2.b * l1.c) / determinant,
     (l2.a * l1.c - l1.a * l2.c) / determinant, 1⟩

/-- Line::move: recomputes p1, p2, p3, p4 from a, b and the new constant
newC, dividing by b; the stored fields a, b, c are left untouched (in
particular c keeps its old value). -/
def move (l : Line) (clickP : Vec3) : Line :=
  let a := l.a
  let b := l.b
  let newC := -a * clickP.x - b * clickP.y
  { l with
    p1 := ⟨-1, (-a * (-1) - newC) / b, 1⟩
    p2 := ⟨1, (-a * 1 - newC) / b, 1⟩
    p3 := ⟨-1, (-a * (-1) - newC) / b, 1⟩
    p4 := ⟨1, (-a * 1 - newC) / b, 1⟩ }

/-- Line::move with its divisions guarded: all four divisions of the source
have divisor b, so the result is none exactly when the source divides by
zero. -/
def moveChecked (l : Line) (clickP : Vec3) : Option Line :=
  if l.b = 0 then none else some (move l clickP)

/-- C1: findIntersectionPoint computes det = a1*b2 - a2*b1; when det = 0 it
returns the sentinel (0,0,1); when det is nonzero it returns
((b1*c2 - b2*c1)/det, (a2*c1 - a1*c2)/det, 1) and that point satisfies both
lines' implicit equations exactly. -/
theorem findIntersectionPoint_correct (l1 l2 : Line) :
    (l1.a * l2.b - l2.a * l1.b = 0 → findIntersectionPoint l1 l2 = ⟨0, 0, 1⟩)
    ∧ (l1.a * l2.b - l2.a * l1.b ≠ 0 →
        findIntersectionPoint l1 l2 =
          ⟨(l1.b * l2.c - l2.b * l1.c) / (l1.a * l2.b - l2.a * l1.b),
           (l2.a * l1.c - l1.a * l2.c) / (l1.a * l2.b - l2.a * l1.b), 1⟩
        ∧ l1.a * (findIntersectionPoint l1 l2).x
            + l1.b * (findIntersectionPoint l1 l2).y + l1.c = 0
        ∧ l2.a * (findIntersectionPoint l1 l2).x
            + l2.b * (findIntersectionPoint l1 l2).y + l2.c = 0) := by
  constructor
  · intro h
    simp [findIntersectionPoint, h]
  · intro h
    refine ⟨by simp [findIntersectionPoint, h], ?_, ?_⟩
    · simp only [findIntersectionPoint, if_neg h]
      field_simp
      ring
    · simp only [findIntersectionPoint, if_neg h]
      field_simp
      ring

theorem findIntersectionPoint_correct_witness :
    (lineOf ⟨0, 0, 1⟩ ⟨1, 1, 1⟩).a * (lineOf ⟨0, 1, 1⟩ ⟨1, 0, 1⟩).b
        - (lineOf ⟨0, 1, 1⟩ ⟨1, 0, 1⟩).a * (lineOf ⟨0, 0, 1⟩ ⟨1, 1, 1⟩).b ≠ 0
    ∧ (lineOf ⟨0, 0, 1⟩ ⟨1, 1, 1⟩).a
          * (findIntersectionPoint (lineOf ⟨0, 0, 1⟩ ⟨1, 1, 1⟩) (lineOf ⟨0, 1, 1⟩ ⟨1, 0, 1⟩)).x
        + (lineOf ⟨0, 0, 1⟩ ⟨1, 1, 1⟩).b
          * (findIntersectionPoint (lineOf ⟨0, 0, 1⟩ ⟨1, 1, 1⟩) (lineOf ⟨0, 1, 1⟩ ⟨1, 0, 1⟩)).y
        + (lineOf ⟨0, 0, 1⟩ ⟨1, 1, 1⟩).c = 0 :=
  ⟨by norm_num [lineOf, implicitABC],
   ((findIntersectionPoint_correct (lineOf ⟨0, 0, 1⟩ ⟨1, 1, 1⟩)
      (lineOf ⟨0, 1, 1⟩ ⟨1, 0, 1⟩)).2 (by norm_num [lineOf, implicitABC])).2.1⟩

/-- C2: the constructor yields (a,b,c) = (1, 0, -p1.x) for a vertical pair
(p1.x = p2.x), otherwise a = p2.y - p1.y, b = p1.x - p2.x,
c = -a*p1.x - b*p1.y; in both cases the parametric direction is
(p2.x - p1.x, p2.y - p1.y). -/
theorem lineOf_implicit (p1 p2 : Vec3) :
    ((lineOf p1 p2).px = p2.x - p1.x ∧ (lineOf p1 p2).py = p2.y - p1.y)
    ∧ (p1.x = p2.x →
        (lineOf p1 p2).a = 1 ∧ (lineOf p1 p2).b = 0 ∧ (lineOf p1 p2).c = -p1.x)
    ∧ (p1.x ≠ p2.x →
        (lineOf p1 p2).a = p2.y - p1.y ∧ (lineOf p1 p2).b = p1.x - p2.x
        ∧ (lineOf p1 p2).c = -(p2.y - p1.y) * p1.x - (p1.x - p2.x) * p1.y) := by
  refine ⟨⟨rfl, rfl⟩, fun hx => ?_, fun hx => ?_⟩
  · simp [lineOf, implicitABC, hx]
  · simp [lineOf, implicitABC, hx]

theorem lineOf_implicit_witness :
    ((0 : ℚ) ≠ (1 : ℚ))
    ∧ (lineOf ⟨0, 0, 1⟩ ⟨1, 1, 1⟩).a = (1 : ℚ) - 0
    ∧ (lineOf ⟨0, 0, 1⟩ ⟨1, 1, 1⟩).b = (0 : ℚ) - 1
    ∧ (lineOf ⟨0, 0, 1⟩ ⟨1, 1, 1⟩).c = -((1 : ℚ) - 0) * 0 - ((0 : ℚ) - 1) * 0 :=
  ⟨by norm_num, (lineOf_implicit ⟨0, 0, 1⟩ ⟨1, 1, 1⟩).2.2 (by norm_num)⟩

/-- C3: for a line with b different from 0, move leaves a and b unchanged
and the four recomputed positions all lie on a*x + b*y + newC = 0 with
newC = -a*t.x - b*t.y, an equation the target itself satisfies. -/
theorem move_preserves_direction (l : Line) (t : Vec3) (hb : l.b ≠ 0) :
    (move l t).a = l.a ∧ (move l t).b = l.b
    ∧ l.a * (move l t).p1.x + l.b * (move l t).p1.y + (-l.a * t.x - l.b * t.y) = 0
    ∧ l.a * (move l t).p2.x + l.b * (move l t).p2.y + (-l.a * t.x - l.b * t.y) = 0
    ∧ l.a * (move l t).p3.x + l.b * (move l t).p3.y + (-l.a * t.x - l.b * t.y) = 0
    ∧ l.a * (move l t).p4.x + l.b * (move l t).p4.y + (-l.a * t.x - l.b * t.y) = 0
    ∧ l.a * t.x + l.b * t.y + (-l.a * t.x - l.b * t.y) = 0 := by
  refine ⟨rfl, rfl, ?_, ?_, ?_, ?_, by ring⟩ <;>
    · simp only [move]
      field_simp
      ring

theorem move_preserves_direction_witness :
    (lineOf ⟨0, 0, 1⟩ ⟨1, 1, 1⟩).b ≠ 0
    ∧ (move (lineOf ⟨0, 0, 1⟩ ⟨1, 1, 1⟩) ⟨1/2, 0, 1⟩).a = (lineOf ⟨0, 0, 1⟩ ⟨1, 1, 1⟩).a :=
  ⟨by norm_num [lineOf, implicitABC],
   (move_preserves_direction (lineOf ⟨0, 0, 1⟩ ⟨1, 1, 1⟩) ⟨1/2, 0, 1⟩
     (by norm_num [lineOf, implicitABC])).1⟩

/-- C4 counterexample: the constructor applied to a vertical pair of points
(the vertical special case, not corrupted data) yields b = 0, and move on
that line does divide by zero; this refutes the claim that no
constructor-produced line can make move divide by zero. -/
theorem move_divzero_on_vertical :
    (lineOf ⟨0, 0, 1⟩ ⟨0, 1, 1⟩).a = 1
    ∧ (lineOf ⟨0, 0, 1⟩ ⟨0, 1, 1⟩).b = 0
    ∧ moveChecked (lineOf ⟨0, 0, 1⟩ ⟨0, 1, 1⟩) ⟨1/2, 0, 1⟩ = none := by
  have hb : (lineOf ⟨0, 0, 1⟩ ⟨0, 1, 1⟩).b = 0 := by norm_num [lineOf, implicitABC]
  exact ⟨by norm_num [lineOf, implicitABC], hb, by simp [moveChecked, hb]⟩

/-- C4 amended: move divides by zero exactly when the stored b is 0; the
vertical special case of the constructor produces b = 0, so moving a
vertical line divides by zero, while every line built from two points with
distinct x-coordinates has b different from 0 and move performs no division
by zero on it. -/
theorem move_divzero_iff (l : Line) (p1 p2 t u : Vec3) :
    (l.b = 0 → moveChecked l t = none)
    ∧ (l.b ≠ 0 → moveChecked l t = some (move l t))
    ∧ (p1.x = p2.x → moveChecked (lineOf p1 p2) u = none)
    ∧ (p1.x ≠ p2.x → moveChecked (lineOf p1 p2) u = some (move (lineOf p1 p2) u)) := by
  refine ⟨fun h => by simp [moveChecked, h], fun h => by simp [moveChecked, h],
    fun h => ?_, fun h => ?_⟩
  · have hb : (lineOf p1 p2).b = 0 := by simp [lineOf, implicitABC, h]
    simp [moveChecked, hb]
  · have hb : (lineOf p1 p2).b = p1.x - p2.x := by simp [lineOf, implicitABC, h]
    simp [moveChecked, hb, sub_ne_zero.mpr h]

theorem move_divzero_iff_witness :
    ((0 : ℚ) ≠ (1 : ℚ))
    ∧ moveChecked (lineOf ⟨0, 0, 1⟩ ⟨1, 0, 1⟩) ⟨0, 1, 1⟩
        = some (move (lineOf ⟨0, 0, 1⟩ ⟨1, 0, 1⟩) ⟨0, 1, 1⟩) :=
  ⟨by norm_num,
   (move_divzero_iff (lineOf ⟨0, 0, 1⟩ ⟨1, 0, 1⟩) ⟨0, 0, 1⟩ ⟨1, 0, 1⟩ ⟨0, 0, 1⟩
     ⟨0, 1, 1⟩).2.2.2 (by norm_num)⟩

/-- C5 counterexample: after move the render endpoints are not consistent
with the stored coefficients: for the line through (0,0) and (1,1) moved to
(1,0), the stored (a,b,c) is (1,-1,0) but a*p3.x + b*p3.y + c = 1, not 0
(move never updates the stored c). -/
theorem move_p3_stale :
    (move (lineOf ⟨0, 0, 1⟩ ⟨1, 1, 1⟩) ⟨1, 0, 1⟩).a
        * (move (lineOf ⟨0, 0, 1⟩ ⟨1, 1, 1⟩) ⟨1, 0, 1⟩).p3.x
      + (move (lineOf ⟨0, 0, 1⟩ ⟨1, 1, 1⟩) ⟨1, 0, 1⟩).b
        * (move (lineOf ⟨0, 0, 1⟩ ⟨1, 1, 1⟩) ⟨1, 0, 1⟩).p3.y
      + (move (lineOf ⟨0, 0, 1⟩ ⟨1, 1, 1⟩) ⟨1, 0, 1⟩).c ≠ 0 := by
  norm_num [move, lineOf, implicitABC, renderEndpoints]

/-- C5 amended: at construction p3 and p4 do satisfy the stored implicit
equation; move recomputes p3 and p4 against the fresh constant
newC = -a*t.x - b*t.y but leaves the stored c unchanged, so after a move
the residual a*p3.x + b*p3.y + c equals c - newC, which is zero exactly
when the target already lay on the original line. -/
theorem line_consistency_amended (p1 p2 : Vec3) (l : Line) (t : Vec3) :
    ((lineOf p1 p2).a * (lineOf p1 p2).p3.x + (lineOf p1 p2).b * (lineOf p1 p2).p3.y
        + (lineOf p1 p2).c = 0
      ∧ (lineOf p1 p2).a * (lineOf p1 p2).p4.x + (lineOf p1 p2).b * (lineOf p1 p2).p4.y
        + (lineOf p1 p2).c = 0)
    ∧ (move l t).c = l.c
    ∧ (l.b ≠ 0 →
        (move l t).a * (move l t).p3.x + (move l t).b * (move l t).p3.y + (move l t).c
            = l.c - (-l.a * t.x - l.b * t.y)
        ∧ (move l t).a * (move l t).p4.x + (move l t).b * (move l t).p4.y + (move l t).c
            = l.c - (-l.a * t.x - l.b * t.y)) := by
  refine ⟨?_, rfl, fun hb => ⟨?_, ?_⟩⟩
  · by_cases hx : p1.x = p2.x
    · constructor <;> simp [lineOf, implicitABC, renderEndpoints, hx]
    · have hb : p1.x - p2.x ≠ 0 := sub_ne_zero.mpr hx
      constructor <;>
        · simp [lineOf, implicitABC, renderEndpoints, hx, hb]
          field_simp
          ring
  · simp only [move]
    field_simp
    ring
  · simp only [move]
    field_simp
    ring

theorem line_consistency_amended_witness :
    (lineOf ⟨0, 0, 1⟩ ⟨1, 1, 1⟩).b ≠ 0
    ∧ (move (lineOf ⟨0, 0, 1⟩ ⟨1, 1, 1⟩) ⟨1, 0, 1⟩).a
          * (move (lineOf ⟨0, 0, 1⟩ ⟨1, 1, 1⟩) ⟨1, 0, 1⟩).p3.x
        + (move (lineOf ⟨0, 0, 1⟩ ⟨1, 1, 1⟩) ⟨1, 0, 1⟩).b
          * (move (lineOf ⟨0, 0, 1⟩ ⟨1, 1, 1⟩) ⟨1, 0, 1⟩).p3.y
        + (move (lineOf ⟨0, 0, 1⟩ ⟨1, 1, 1⟩) ⟨1, 0, 1⟩).c
          = (lineOf ⟨0, 0, 1⟩ ⟨1, 1, 1⟩).c
            - (-(lineOf ⟨0, 0, 1⟩ ⟨1, 1, 1⟩).a * (1 : ℚ)
               - (lineOf ⟨0, 0, 1⟩ ⟨1, 1, 1⟩).b * (0 : ℚ)) :=
  ⟨by norm_num [lineOf, implicitABC],
   ((line_consistency_amended ⟨0, 0, 1⟩ ⟨1, 1, 1⟩ (lineOf ⟨0, 0, 1⟩ ⟨1, 1, 1⟩)
      ⟨1, 0, 1⟩).2.2 (by norm_num [lineOf, implicitABC])).1⟩

/-- Squared Euclidean distance in the plane: PointCollection::searchNearestP
computes sqrt of this; the model keeps the square (sqrt is strictly
monotone on nonnegatives, so the strict comparisons of the loop agree). -/
def distSq (pos p : Vec3) : ℚ :=
  (pos.x - p.x) * (pos.x - p.x) + (pos.y - p.y) * (pos.y - p.y)

/-- The scan loop of PointCollection::searchNearestP: running minimum
distance (squared) and current best point, strict-improvement update. -/
def snGo (pos : Vec3) : List Vec3 → ℚ → Vec3 → Vec3
  | [], _, est => est
  | p :: rest, minD, est =>
      if distSq pos p < minD then snGo pos rest (distSq pos p) p
      else snGo pos rest minD est

/-- PointCollection::searchNearestP: sentinel (0,0,1) on an empty store,
otherwise a linear scan starting from the first stored point. -/
def searchNearestP (pts : List Vec3) (pos : Vec3) : Vec3 :=
  match pts with
  | [] => ⟨0, 0, 1⟩
  | p0 :: rest => snGo pos rest (distSq pos p0) p0

theorem distSq_nonneg (pos p : Vec3) : 0 ≤ distSq pos p :=
  add_nonneg (mul_self_nonneg _) (mul_self_nonneg _)

theorem snGo_spec (pos : Vec3) :
    ∀ (rest : List Vec3) (minD : ℚ) (est : Vec3),
      (snGo pos rest minD est = est ∧ ∀ p ∈ rest, minD ≤ distSq pos p)
      ∨ (∃ pre q post, rest = pre ++ q :: post ∧ snGo pos rest minD est = q
          ∧ distSq pos q < minD
          ∧ (∀ p ∈ pre, distSq pos q < distSq pos p)
          ∧ (∀ p ∈ post, distSq pos q ≤ distSq pos p))
  | [], minD, est => by
      left
      exact ⟨rfl, by simp⟩
  | p :: rest, minD, est => by
      by_cases hp : distSq pos p < minD
      · have step : snGo pos (p :: rest) minD est = snGo pos rest (distSq pos p) p := by
          simp [snGo, hp]
        rcases snGo_spec pos rest (distSq pos p) p with ⟨heq, hall⟩ | ⟨pre, q, post, hsplit, heq, hlt, hpre, hpost⟩
        · right
          exact ⟨[], p, rest, by simp, by rw [step, heq], hp, by simp, hall⟩
        · right
          refine ⟨p :: pre, q, post, by simp [hsplit], by rw [step, heq], lt_trans hlt hp, ?_, hpost⟩
          intro r hr
          rcases List.mem_cons.mp hr with h | h
          · exact h ▸ hlt
          · exact hpre r h
      · have step : snGo pos (p :: rest) minD est = snGo pos rest minD est := by
          simp [snGo, hp]
        rcases snGo_spec pos rest minD est with ⟨heq, hall⟩ | ⟨pre, q, post, hsplit, heq, hlt, hpre, hpost⟩
        · left
          refine ⟨by rw [step, heq], ?_⟩
          intro r hr
          rcases List.mem_cons.mp hr with h | h
          · exact h ▸ not_lt.mp hp
          · exact hall r h
        · right
          refine ⟨p :: pre, q, post, by simp [hsplit], by rw [step, heq], hlt, ?_, hpost⟩
          intro r hr
          rcases List.mem_cons.mp hr with h | h
          · exact h ▸ lt_of_lt_of_le hlt (not_lt.mp hp)
          · exact hpre r h

/-- C7: on an empty registry searchNearestP returns the sentinel (0,0,1);
on a non-empty registry it returns a stored point of minimal Euclidean
distance to the query, ties broken by the first minimum in insertion order
(every strictly earlier stored point is strictly farther), and querying at
the exact coordinates of a stored point yields a result at distance 0. -/
theorem searchNearestP_correct (pts : List Vec3) (pos : Vec3) :
    (pts = [] → searchNearestP pts pos = ⟨0, 0, 1⟩)
    ∧ (pts ≠ [] →
        ∃ pre post, pts = pre ++ searchNearestP pts pos :: post
          ∧ (∀ p ∈ pre, distSq pos (searchNearestP pts pos) < distSq pos p)
          ∧ (∀ p ∈ pts, distSq pos (searchNearestP pts pos) ≤ distSq pos p)
          ∧ (∀ p ∈ pts, p.x = pos.x → p.y = pos.y →
              distSq pos (searchNearestP pts pos) = 0)) := by
  constructor
  · intro h
    subst h
    rfl
  · intro hne
    match pts with
    | p0 :: rest =>
      have hsn : searchNearestP (p0 :: rest) pos = snGo pos rest (distSq pos p0) p0 := rfl
      have hmin :
          ∃ pre post, p0 :: rest = pre ++ searchNearestP (p0 :: rest) pos :: post
            ∧ (∀ p ∈ pre, distSq pos (searchNearestP (p0 :: rest) pos) < distSq pos p)
            ∧ (∀ p ∈ p0 :: rest, distSq pos (searchNearestP (p0 :: rest) pos) ≤ distSq pos p) := by
        rcases snGo_spec pos rest (distSq pos p0) p0 with ⟨heq, hall⟩ | ⟨pre, q, post, hsplit, heq, hlt, hpre, hpost⟩
        · refine ⟨[], rest, by simp [hsn, heq], by simp, ?_⟩
          intro r hr
          rcases List.mem_cons.mp hr with h | h
          · rw [hsn, heq, h]
          · rw [hsn, heq]
            exact hall r h
        · refine ⟨p0 :: pre, post, by rw [hsn, heq, hsplit]; simp, ?_, ?_⟩
          · intro r hr
            rw [hsn, heq]
            rcases List.mem_cons.mp hr with h | h
            · exact h ▸ hlt
            · exact hpre r h
          · intro r hr
            rw [hsn, heq]
            rcases List.mem_cons.mp hr with h | h
            · exact h ▸ hlt.le
            · rw [hsplit] at h
              rcases List.mem_append.mp h with h | h
              · exact (hpre r h).le
              · rcases List.mem_cons.mp h with h | h
                · exact h ▸ le_refl _
                · exact hpost r h
      rcases hmin with ⟨pre, post, hsplit, hpre, hall⟩
      refine ⟨pre, post, hsplit, hpre, hall, ?_⟩
      intro p hp hx hy
      have hzero : distSq pos p = 0 := by
        simp [distSq, hx, hy]
      have h1 : distSq pos (searchNearestP (p0 :: rest) pos) ≤ 0 := hzero ▸ hall p hp
      exact le_antisymm h1 (distSq_nonneg _ _)

theorem searchNearestP_correct_witness :
    ([⟨0, 0, 1⟩, ⟨1, 0, 1⟩] : List Vec3) ≠ []
    ∧ ∃ pre post,
        ([⟨0, 0, 1⟩, ⟨1, 0, 1⟩] : List Vec3)
          = pre ++ searchNearestP [⟨0, 0, 1⟩, ⟨1, 0, 1⟩] ⟨1, 1, 1⟩ :: post
        ∧ (∀ p ∈ pre,
            distSq ⟨1, 1, 1⟩ (searchNearestP [⟨0, 0, 1⟩, ⟨1, 0, 1⟩] ⟨1, 1, 1⟩) < distSq ⟨1, 1, 1⟩ p)
        ∧ (∀ p ∈ ([⟨0, 0, 1⟩, ⟨1, 0, 1⟩] : List Vec3),
            distSq ⟨1, 1, 1⟩ (searchNearestP [⟨0, 0, 1⟩, ⟨1, 0, 1⟩] ⟨1, 1, 1⟩) ≤ distSq ⟨1, 1, 1⟩ p)
        ∧ (∀ p ∈ ([⟨0, 0, 1⟩, ⟨1, 0, 1⟩] : List Vec3), p.x = (1 : ℚ) → p.y = (1 : ℚ) →
            distSq ⟨1, 1, 1⟩ (searchNearestP [⟨0, 0, 1⟩, ⟨1, 0, 1⟩] ⟨1, 1, 1⟩) = 0) :=
  ⟨by simp,
   (searchNearestP_correct [⟨0, 0, 1⟩, ⟨1, 0, 1⟩] ⟨1, 1, 1⟩).2 (by simp)⟩

/-- The selection threshold 0.01 of findNearestLine, squared. -/
def thresholdSq : ℚ := 1 / 10000

/-- The loop of LineCollection::findNearestLine over the flat vertex store
(4 entries per stored line; the loop reads entries i and i+1, the defining
points).  State: current flat index i, running minimum distance and best
index.  Distances are carried squared; a zero-length direction makes the
float distance NaN and both comparisons false, modeled by the explicit
zero test on the denominator. -/
def fnlGo (clickP : Vec3) : List Vec3 → Int → ℚ → Int → ℚ × Int
  | firstPoint :: secPoint :: _ :: _ :: rest, i, minDistanceSq, nearestLine =>
      let lineVector := vsub secPoint firstPoint
      let pointVector := vsub clickP firstPoint
      let num := lengthSq (cross3 lineVector pointVector)
      let den := lengthSq lineVector
      if den = 0 then
        fnlGo clickP rest (i + 4) minDistanceSq nearestLine
      else if num / den < minDistanceSq ∧ num / den < thresholdSq then
        fnlGo clickP rest (i + 4) (num / den) i
      else
        fnlGo clickP rest (i + 4) minDistanceSq nearestLine
  | _, _, minDistanceSq, nearestLine => (minDistanceSq, nearestLine)

/-- LineCollection::findNearestLine: minDistance starts at 20 (squared:
400), nearestLine at -1. -/
def findNearestLine (vtx : List Vec3) (clickP : Vec3) : Int :=
  (fnlGo clickP vtx 0 400 (-1)).2

/-- Squared point-to-line distance of the k-th stored line (chunk of 4
vertex entries), none when the defining points coincide (float NaN). -/
def chunkDistSq (clickP : Vec3) : List Vec3 → Nat → Option ℚ
  | firstPoint :: secPoint :: _ :: _ :: rest, k =>
      match k with
      | 0 =>
          let num := lengthSq (cross3 (vsub secPoint firstPoint) (vsub clickP firstPoint))
          let den := lengthSq (vsub secPoint firstPoint)
          if den = 0 then none else some (num / den)
      | k' + 1 => chunkDistSq clickP rest k'
  | _, _ => none

theorem fnlGo_spec (clickP : Vec3) :
    ∀ (vtx : List Vec3) (i : Int) (minD : ℚ) (nearest : Int),
      (fnlGo clickP vtx i minD nearest = (minD, nearest)
        ∧ ∀ k d, chunkDistSq clickP vtx k = some d → d < thresholdSq → minD ≤ d)
      ∨ (∃ k d, chunkDistSq clickP vtx k = some d
          ∧ fnlGo clickP vtx i minD nearest = (d, i + 4 * (k : Int))
          ∧ d < thresholdSq ∧ d < minD
          ∧ (∀ j e, j < k → chunkDistSq clickP vtx j = some e → e < thresholdSq → d < e)
          ∧ (∀ j e, chunkDistSq clickP vtx j = some e → e < thresholdSq → d ≤ e))
  | q1 :: q2 :: q3 :: q4 :: rest, i, minD, nearest => by
      have hchunk0 :
          chunkDistSq clickP (q1 :: q2 :: q3 :: q4 :: rest) 0 =
            if lengthSq (vsub q2 q1) = 0 then none
            else some (lengthSq (cross3 (vsub q2 q1) (vsub clickP q1)) / lengthSq (vsub q2 q1)) :=
        rfl
      have hchunkS : ∀ k, chunkDistSq clickP (q1 :: q2 :: q3 :: q4 :: rest) (k + 1)
          = chunkDistSq clickP rest k := fun k => rfl
      by_cases hden : lengthSq (vsub q2 q1) = 0
      · have hstep : fnlGo clickP (q1 :: q2 :: q3 :: q4 :: rest) i minD nearest
            = fnlGo clickP rest (i + 4) minD nearest := by
          simp only [fnlGo, hden, if_true, if_pos]
        have h0 : chunkDistSq clickP (q1 :: q2 :: q3 :: q4 :: rest) 0 = none := by
          rw [hchunk0, if_pos hden]
        rcases fnlGo_spec clickP rest (i + 4) minD nearest with
          ⟨heq, hall⟩ | ⟨k, d, hck, heq, hth, hmin, hstrict, hall⟩
        · left
          refine ⟨by rw [hstep, heq], ?_⟩
          intro k d hc ht
          match k with
          | 0 => rw [h0] at hc; cases hc
          | k + 1 => exact hall k d (by rw [hchunkS] at hc; exact hc) ht
        · right
          refine ⟨k + 1, d, by rw [hchunkS]; exact hck, ?_, hth, hmin, ?_, ?_⟩
          · rw [hstep, heq]
            congr 1
            push_cast
            ring
          · intro j e hj hc ht
            match j with
            | 0 => rw [h0] at hc; cases hc
            | j + 1 => exact hstrict j e (by omega) (by rw [hchunkS] at hc; exact hc) ht
          · intro j e hc ht
            match j with
            | 0 => rw [h0] at hc; cases hc
            | j + 1 => exact hall j e (by rw [hchunkS] at hc; exact hc) ht
      · set dsq := lengthSq (cross3 (vsub q2 q1) (vsub clickP q1)) / lengthSq (vsub q2 q1) with hdsq
        have h0 : chunkDistSq clickP (q1 :: q2 :: q3 :: q4 :: rest) 0 = some dsq := by
          rw [hchunk0, if_neg hden]
        by_cases hcond : dsq < minD ∧ dsq < thresholdSq
        · have hstep : fnlGo clickP (q1 :: q2 :: q3 :: q4 :: rest) i minD nearest
              = fnlGo clickP rest (i + 4) dsq i := by
            simp only [fnlGo, ← hdsq]
            rw [if_neg hden, if_pos hcond]
          rcases fnlGo_spec clickP rest (i + 4) dsq i with
            ⟨heq, hall⟩ | ⟨k, d, hck, heq, hth, hmin, hstrict, hall⟩
          · right
            refine ⟨0, dsq, h0, ?_, hcond.2, hcond.1, ?_, ?_⟩
            · rw [hstep, heq]
              simp
            · intro j e hj hc ht
              omega
            · intro j e hc ht
              match j with
              | 0 =>
                  rw [h0] at hc
                  have he : dsq = e := Option.some.inj hc
                  exact le_of_eq he
              | j + 1 => exact hall j e (by rw [hchunkS] at hc; exact hc) ht
          · right
            refine ⟨k + 1, d, by rw [hchunkS]; exact hck, ?_, hth, lt_trans hmin hcond.1, ?_, ?_⟩
            · rw [hstep, heq]
              congr 1
              push_cast
              ring
            · intro j e hj hc ht
              match j with
              | 0 =>
                  rw [h0] at hc
                  have he : dsq = e := Option.some.inj hc
                  exact he ▸ hmin
              | j + 1 => exact hstrict j e (by omega) (by rw [hchunkS] at hc; exact hc) ht
            · intro j e hc ht
              match j with
              | 0 =>
                  rw [h0] at hc
                  have he : dsq = e := Option.some.inj hc
                  exact he ▸ hmin.le
              | j + 1 => exact hall j e (by rw [hchunkS] at hc; exact hc) ht
        · have hge : dsq < thresholdSq → minD ≤ dsq := by
            intro ht
            by_contra hlt
            exact hcond ⟨not_le.mp hlt, ht⟩
          have hstep : fnlGo clickP (q1 :: q2 :: q3 :: q4 :: rest) i minD nearest
              = fnlGo clickP rest (i + 4) minD nearest := by
            simp only [fnlGo, ← hdsq]
            rw [if_neg hden, if_neg hcond]
          rcases fnlGo_spec clickP rest (i + 4) minD nearest with
            ⟨heq, hall⟩ | ⟨k, d, hck, heq, hth, hmin, hstrict, hall⟩
          · left
            refine ⟨by rw [hstep, heq], ?_⟩
            intro k d hc ht
            match k with
            | 0 =>
                rw [h0] at hc
                have he : dsq = d := Option.some.inj hc
                exact he ▸ hge (he.symm ▸ ht)
            | k + 1 => exact hall k d (by rw [hchunkS] at hc; exact hc) ht
          · right
            refine ⟨k + 1, d, by rw [hchunkS]; exact hck, ?_, hth, hmin, ?_, ?_⟩
            · rw [hstep, heq]
              congr 1
              push_cast
              ring
            · intro j e hj hc ht
              match j with
              | 0 =>
                  rw [h0] at hc
                  have he : dsq = e := Option.some.inj hc
                  exact he ▸ lt_of_lt_of_le hmin (hge (he.symm ▸ ht))
              | j + 1 => exact hstrict j e (by omega) (by rw [hchunkS] at hc; exact hc) ht
            · intro j e hc ht
              match j with
              | 0 =>
                  rw [h0] at hc
                  have he : dsq = e := Option.some.inj hc
                  exact le_of_lt (he ▸ lt_of_lt_of_le hmin (hge (he.symm ▸ ht)))
              | j + 1 => exact hall j e (by rw [hchunkS] at hc; exact hc) ht
  | [], i, minD, nearest => by
      left
      exact ⟨rfl, fun k d hc => by cases hc⟩
  | [q1], i, minD, nearest => by
      left
      exact ⟨rfl, fun k d hc => by cases hc⟩
  | [q1, q2], i, minD, nearest => by
      left
      exact ⟨rfl, fun k d hc => by cases hc⟩
  | [q1, q2, q3], i, minD, nearest => by
      left
      exact ⟨rfl, fun k d hc => by cases hc⟩

/-- C6: findNearestLine returns the flat index of a stored line only if the
squared perpendicular distance from the query to the infinite line through
that line's defining points is below both the squared cap 400 = 20^2 and
the squared threshold 1/10000 = 0.01^2; among qualifying lines the minimum
distance wins, ties broken by first occurrence in storage order (every
earlier qualifying line is strictly farther); when no stored line is
within the threshold it returns -1. -/
theorem findNearestLine_correct (vtx : List Vec3) (clickP : Vec3) :
    ((∀ (k : ℕ) (d : ℚ), chunkDistSq clickP vtx k = some d → thresholdSq ≤ d) →
      findNearestLine vtx clickP = -1)
    ∧ (findNearestLine vtx clickP ≠ -1 →
        ∃ (k : ℕ) (d : ℚ), findNearestLine vtx clickP = 4 * (k : Int)
          ∧ chunkDistSq clickP vtx k = some d
          ∧ d < thresholdSq ∧ d < 400
          ∧ (∀ (j : ℕ) (e : ℚ), j < k → chunkDistSq clickP vtx j = some e →
              e < thresholdSq → d < e)
          ∧ (∀ (j : ℕ) (e : ℚ), chunkDistSq clickP vtx j = some e →
              e < thresholdSq → d ≤ e)) := by
  constructor
  · intro h
    rcases fnlGo_spec clickP vtx 0 400 (-1) with ⟨heq, _⟩ | ⟨k, d, hck, _, hth, _, _, _⟩
    · simp [findNearestLine, heq]
    · exact absurd hth (not_lt.mpr (h k d hck))
  · intro hne
    rcases fnlGo_spec clickP vtx 0 400 (-1) with ⟨heq, _⟩ | ⟨k, d, hck, heq, hth, hmin, hstrict, hall⟩
    · exact absurd (by simp [findNearestLine, heq]) hne
    · exact ⟨k, d, by simp [findNearestLine, heq], hck, hth, hmin, hstrict, hall⟩

theorem findNearestLine_correct_witness :
    findNearestLine [⟨0, 0, 1⟩, ⟨1, 0, 1⟩, ⟨-1, 0, 1⟩, ⟨1, 0, 1⟩] ⟨0, 1/2, 1⟩ = -1 :=
  (findNearestLine_correct [⟨0, 0, 1⟩, ⟨1, 0, 1⟩, ⟨-1, 0, 1⟩, ⟨1, 0, 1⟩] ⟨0, 1/2, 1⟩).1
    (by
      intro k d hc
      match k with
      | 0 =>
          have : chunkDistSq ⟨0, 1/2, 1⟩ [⟨0, 0, 1⟩, ⟨1, 0, 1⟩, ⟨-1, 0, 1⟩, ⟨1, 0, 1⟩] 0
              = some (1/4) := by
            norm_num [chunkDistSq, vsub, cross3, lengthSq, dot3]
          rw [this] at hc
          injection hc with h
          rw [← h]
          norm_num [thresholdSq]
      | k + 1 =>
          have : chunkDistSq ⟨0, 1/2, 1⟩ [⟨0, 0, 1⟩, ⟨1, 0, 1⟩, ⟨-1, 0, 1⟩, ⟨1, 0, 1⟩] (k + 1)
              = none := rfl
          rw [this] at hc
          cases hc)

/-- The four vertex entries LineCollection::addLine pushes for one line:
p1, p2, p3, p4. -/
def lineQuad (l : Line) : List Vec3 := [l.p1, l.p2, l.p3, l.p4]

/-- LineCollection::addLine: appends the line's four positions to the flat
vertex store. -/
def addLine (vtx : List Vec3) (l : Line) : List Vec3 := vtx ++ lineQuad l

/-- Window size (600 x 600). -/
def windowWidth : ℚ := 600

def windowHeight : ℚ := 600

/-- Device-pixel to world conversion of the mouse handlers:
cX = 2*pX/width - 1, cY = 1 - 2*pY/height, packed as a point (z = 1). -/
def toWorld (pX pY : Int) : Vec3 :=
  ⟨2 * (pX : ℚ) / windowWidth - 1, 1 - 2 * (pY : ℚ) / windowHeight, 1⟩

/-- The four interaction modes selected by keys p, l, m, i. -/
inductive Key
  | p
  | l
  | m
  | i
deriving DecidableEq

inductive MouseButton
  | left
  | middle
  | right
deriving DecidableEq

/-- Button state: GLUT_DOWN / GLUT_UP. -/
inductive MState
  | down
  | up
deriving DecidableEq

/-- The mutable program state the event handlers touch: the two registries,
the pending-line state of LineCollection, the current mode, and the globals
l1, l2, moved, idx, firstLine. -/
structure AppState where
  points : List Vec3
  linesVtx : List Vec3
  firstCLick : Bool
  startPoint : Vec3
  current : Key
  l1 : Line
  l2 : Line
  moved : Line
  idx : Int
  firstLine : Bool
deriving DecidableEq

/-- Total read of the flat vertex store at a signed index; the none branch
models an out-of-bounds std::vector access of the C++ code. -/
def vgetI (vtx : List Vec3) (i : Int) : Option Vec3 :=
  if i < 0 then none else vtx.get? i.toNat

/-- Write into the flat vertex store at a signed index (the theorems about
onMouseMotion carry explicit bounds for the touched slots). -/
def setI (vtx : List Vec3) (i : Int) (v : Vec3) : List Vec3 :=
  if i < 0 then vtx else vtx.set i.toNat v

/-- A Line whose members are all zero: the state of the default-constructed
globals l1, l2, moved at program start (globals are zero-initialized and
the default constructor writes nothing). -/
def zeroLine : Line :=
  { p1 := ⟨0, 0, 0⟩, p2 := ⟨0, 0, 0⟩, p3 := ⟨0, 0, 0⟩, p4 := ⟨0, 0, 0⟩
    a := 0, b := 0, c := 0, px := 0, py := 0 }

/-- The program state at startup: empty registries, mode p, idx = 0,
firstLine = false. -/
def initState : AppState :=
  { points := [], linesVtx := [], firstCLick := false, startPoint := ⟨0, 0, 0⟩
    current := Key.p, l1 := zeroLine, l2 := zeroLine, moved := zeroLine
    idx := 0, firstLine := false }

/-- onKeyboard: the four sequential ifs selecting the mode. -/
def onKeyboard (s : AppState) (key : Char) : AppState :=
  let s1 := if key = 'p' then { s with current := Key.p } else s
  let s2 := if key = 'l' then { s1 with current := Key.l } else s1
  let s3 := if key = 'm' then { s2 with current := Key.m } else s2
  if key = 'i' then { s3 with current := Key.i } else s3

/-- onMouse: the left-button dispatch over the current mode (the four
sequential mode tests of the source; middle/right buttons only log).  The
result is none when a branch reads the vertex store out of bounds (the
MoveLine branch does so with idx = -1). -/
def onMouse (s : AppState) (button : MouseButton) (mstate : MState) (pX pY : Int) :
    Option AppState :=
  let w := toWorld pX pY
  match button with
  | MouseButton.left =>
      let s1 :=
        if s.current = Key.p ∧ mstate = MState.down then
          { s with points := s.points ++ [w] }
        else s
      let s2 :=
        if s1.current = Key.l ∧ mstate = MState.down ∧ 2 ≤ s1.points.length then
          if s1.firstCLick = false then
            { s1 with firstCLick := true, startPoint := searchNearestP s1.points w }
          else
            { s1 with
                firstCLick := false,
                linesVtx := addLine s1.linesVtx
                  (lineOf s1.startPoint (searchNearestP s1.points w)) }
        else s1
      let os3 : Option AppState :=
        if s2.current = Key.i ∧ mstate = MState.down then
          let idx := findNearestLine s2.linesVtx w
          if idx ≠ -1 then
            match vgetI s2.linesVtx idx, vgetI s2.linesVtx (idx + 1) with
            | some q1, some q2 =>
                if s2.firstLine = false then
                  some { s2 with idx := idx, l1 := lineOf q1 q2, firstLine := true }
                else
                  some { s2 with
                          idx := -1,
                          points := s2.points ++ [findIntersectionPoint s2.l1 (lineOf q1 q2)],
                          l1 := lineOf ⟨0, 0, 0⟩ ⟨0, 0, 0⟩, l2 := lineOf ⟨0, 0, 0⟩ ⟨0, 0, 0⟩,
                          firstLine := false }
            | _, _ => none
          else some { s2 with idx := idx }
        else some s2
      match os3 with
      | none => none
      | some s3 =>
          if s3.current = Key.m ∧ mstate = MState.down then
            let idx := findNearestLine s3.linesVtx w
            match vgetI s3.linesVtx idx, vgetI s3.linesVtx (idx + 1) with
            | some q1, some q2 => some { s3 with idx := idx, moved := lineOf q1 q2 }
            | _, _ => none
          else if s3.current = Key.m ∧ ¬ mstate = MState.down then
            some { s3 with idx := -1, moved := lineOf ⟨0, 0, 0⟩ ⟨0, 0, 0⟩ }
          else some s3
  | MouseButton.middle => some s
  | MouseButton.right => some s

/-- onMouseMotion: while a line is selected in MoveLine mode, move it to
the cursor and write its recomputed p1/p2 into all four stored slots
(slots idx and idx+2 get p1, slots idx+1 and idx+3 get p2). -/
def onMouseMotion (s : AppState) (pX pY : Int) : AppState :=
  let w := toWorld pX pY
  if s.idx ≠ -1 ∧ s.current = Key.m then
    let mv := move s.moved w
    let vtx1 := setI s.linesVtx (s.idx + 2) mv.p1
    let vtx2 := setI vtx1 s.idx mv.p1
    let vtx3 := setI vtx2 (s.idx + 3) mv.p2
    let vtx4 := setI vtx3 (s.idx + 1) mv.p2
    { s with moved := mv, linesVtx := vtx4 }
  else s

/-- C8: in DrawLine mode with at least two stored points, a left press with
no pending start records the nearest stored point to the cursor as the
pending start and sets the pending flag; a left press with a pending start
constructs Line(pendingStart, nearestStoredPoint), appends it via addLine
and clears the pending flag. -/
theorem onMouse_drawLine (s : AppState) (pX pY : Int)
    (hc : s.current = Key.l) (hlen : 2 ≤ s.points.length) :
    (s.firstCLick = false →
      onMouse s MouseButton.left MState.down pX pY =
        some { s with firstCLick := true,
                      startPoint := searchNearestP s.points (toWorld pX pY) })
    ∧ (s.firstCLick = true →
      onMouse s MouseButton.left MState.down pX pY =
        some { s with firstCLick := false,
                      linesVtx := addLine s.linesVtx
                        (lineOf s.startPoint (searchNearestP s.points (toWorld pX pY))) }) := by
  constructor <;> intro hfc <;> simp [onMouse, hc, hfc, hlen]

theorem onMouse_drawLine_witness :
    ({ initState with
        current := Key.l,
        points := [⟨0, 0, 1⟩, ⟨1/2, 1/2, 1⟩] } : AppState).current = Key.l
    ∧ onMouse { initState with current := Key.l, points := [⟨0, 0, 1⟩, ⟨1/2, 1/2, 1⟩] }
        MouseButton.left MState.down 300 300 =
        some { ({ initState with
                   current := Key.l,
                   points := [⟨0, 0, 1⟩, ⟨1/2, 1/2, 1⟩] } : AppState) with
                firstCLick := true,
                startPoint := searchNearestP [⟨0, 0, 1⟩, ⟨1/2, 1/2, 1⟩] (toWorld 300 300) } :=
  ⟨rfl,
   (onMouse_drawLine { initState with current := Key.l, points := [⟨0, 0, 1⟩, ⟨1/2, 1/2, 1⟩] }
      300 300 rfl (by simp)).1 rfl⟩

/-- C9: in MoveLine mode, when findNearestLine reports no line within the
threshold (result -1), the left-press handler still reads the vertex store
at indices -1 and 0 to build the active drag line; the out-of-bounds read
at index -1 hits the error branch of the total indexing function, so the
handler's embedding returns none.  This is reachable from the public input
interface (see the witness: fresh program state, key m, one left press). -/
theorem onMouse_moveLine_oob (s : AppState) (pX pY : Int)
    (hc : s.current = Key.m)
    (hmiss : findNearestLine s.linesVtx (toWorld pX pY) = -1) :
    onMouse s MouseButton.left MState.down pX pY = none
    ∧ vgetI s.linesVtx (-1) = none := by
  constructor
  · simp [onMouse, hc, hmiss, vgetI]
  · simp [vgetI]

theorem onMouse_moveLine_oob_witness :
    (onKeyboard initState 'm').current = Key.m
    ∧ findNearestLine (onKeyboard initState 'm').linesVtx (toWorld 300 300) = -1
    ∧ onMouse (onKeyboard initState 'm') MouseButton.left MState.down 300 300 = none :=
  ⟨by decide, rfl,
   (onMouse_moveLine_oob (onKeyboard initState 'm') 300 300 (by decide) rfl).1⟩

/-- C10: during a MoveLine drag (mode m, a selected in-bounds line index),
a motion event overwrites all four stored slots of the dragged line: slots
idx and idx+2 both receive the recomputed p1, slots idx+1 and idx+3 both
receive the recomputed p2, so the defining-point slots equal the
render-endpoint slots afterwards; the recomputed points have x-coordinates
exactly -1 and 1, so the original defining points are gone from the
registry, replaced by values depending only on the moved line's (a, b) and
the cursor. -/
theorem onMouseMotion_drag (s : AppState) (pX pY : Int)
    (hc : s.current = Key.m) (h0 : 0 ≤ s.idx)
    (hlen : s.idx.toNat + 3 < s.linesVtx.length) :
    (onMouseMotion s pX pY).linesVtx[s.idx.toNat]?
        = some (move s.moved (toWorld pX pY)).p1
    ∧ (onMouseMotion s pX pY).linesVtx[s.idx.toNat + 1]?
        = some (move s.moved (toWorld pX pY)).p2
    ∧ (onMouseMotion s pX pY).linesVtx[s.idx.toNat + 2]?
        = some (move s.moved (toWorld pX pY)).p1
    ∧ (onMouseMotion s pX pY).linesVtx[s.idx.toNat + 3]?
        = some (move s.moved (toWorld pX pY)).p2
    ∧ (move s.moved (toWorld pX pY)).p1.x = -1
    ∧ (move s.moved (toWorld pX pY)).p2.x = 1
    ∧ (onMouseMotion s pX pY).moved = move s.moved (toWorld pX pY) := by
  have hne : s.idx ≠ -1 := by omega
  have hidx : s.idx = (s.idx.toNat : Int) := (Int.toNat_of_nonneg h0).symm
  set n := s.idx.toNat with hn
  set mv := move s.moved (toWorld pX pY) with hmv
  have hbranch : onMouseMotion s pX pY =
      { s with moved := mv,
               linesVtx := setI (setI (setI (setI s.linesVtx (s.idx + 2) mv.p1)
                 s.idx mv.p1) (s.idx + 3) mv.p2) (s.idx + 1) mv.p2 } := by
    simp only [onMouseMotion]
    rw [if_pos ⟨hne, hc⟩]
  have hsetk : ∀ (L : List Vec3) (i : Int) (k : ℕ) (v : Vec3), i = (k : Int) →
      setI L i v = L.set k v := by
    intro L i k v hik
    subst hik
    rw [setI, if_neg (by omega), Int.toNat_natCast]
  have hvtx : (onMouseMotion s pX pY).linesVtx =
      (((s.linesVtx.set (n + 2) mv.p1).set n mv.p1).set (n + 3) mv.p2).set (n + 1) mv.p2 := by
    rw [hbranch]
    show setI (setI (setI (setI s.linesVtx (s.idx + 2) mv.p1) s.idx mv.p1)
      (s.idx + 3) mv.p2) (s.idx + 1) mv.p2 = _
    rw [hidx]
    rw [hsetk s.linesVtx ((n : Int) + 2) (n + 2) mv.p1 (by push_cast; ring)]
    rw [hsetk _ (n : Int) n mv.p1 rfl]
    rw [hsetk _ ((n : Int) + 3) (n + 3) mv.p2 (by push_cast; ring)]
    rw [hsetk _ ((n : Int) + 1) (n + 1) mv.p2 (by push_cast; ring)]
  have hlen1 : n < s.linesVtx.length := by omega
  have hlen2 : n + 1 < s.linesVtx.length := by omega
  have hlen3 : n + 2 < s.linesVtx.length := by omega
  refine ⟨?_, ?_, ?_, ?_, rfl, rfl, by rw [hbranch]⟩
  · rw [hvtx]
    rw [List.getElem?_set_ne (by omega), List.getElem?_set_ne (by omega),
      List.getElem?_set_self (by simpa using hlen1)]
  · rw [hvtx]
    rw [List.getElem?_set_self (by simpa using hlen2)]
  · rw [hvtx]
    rw [List.getElem?_set_ne (by omega), List.getElem?_set_ne (by omega),
      List.getElem?_set_ne (by omega),
      List.getElem?_set_self (by simpa using hlen3)]
  · rw [hvtx]
    rw [List.getElem?_set_ne (by omega),
      List.getElem?_set_self (by simpa using hlen)]

theorem onMouseMotion_drag_witness :
    ({ initState with
        current := Key.m, idx := 0, moved := lineOf ⟨0, 0, 1⟩ ⟨1, 1, 1⟩,
        linesVtx := [⟨0, 0, 1⟩, ⟨1, 1, 1⟩, ⟨-1, -1, 1⟩, ⟨1, 1, 1⟩] } : AppState).current = Key.m
    ∧ (onMouseMotion { initState with
        current := Key.m, idx := 0, moved := lineOf ⟨0, 0, 1⟩ ⟨1, 1, 1⟩,
        linesVtx := [⟨0, 0, 1⟩, ⟨1, 1, 1⟩, ⟨-1, -1, 1⟩, ⟨1, 1, 1⟩] } 300 300).linesVtx[(0 : ℕ)]?
        = some (move (lineOf ⟨0, 0, 1⟩ ⟨1, 1, 1⟩) (toWorld 300 300)).p1 :=
  ⟨rfl,
   (onMouseMotion_drag { initState with
      current := Key.m, idx := 0, moved := lineOf ⟨0, 0, 1⟩ ⟨1, 1, 1⟩,
      linesVtx := [⟨0, 0, 1⟩, ⟨1, 1, 1⟩, ⟨-1, -1, 1⟩, ⟨1, 1, 1⟩] } 300 300
      rfl (by simp) (by simp)).1⟩
